/-
Verification of the ETL transformer in `src/main.py` (functions
`transform_report_data` and `send_to_gs`).

Modelling conventions:
* A Python `str` is modelled as a Lean `String` (a sequence of Unicode code
  points); character-level work is done on `String.data : List Char`.
* The pandas DataFrame read from the report CSV is modelled as a
  `List RawRow`; each row carries the columns the transformer uses.
  `Dimension.DATE` is modelled as an already-parsed calendar date
  (a `Nat × Nat × Nat` triple `(year, month, day)`), and the integer metric
  columns as int64 cells: `Int` values in `[-2^63, 2^63)` whose group sums
  are reduced by `wrapInt64` — numpy int64 arithmetic wraps silently on
  overflow, and wrapping addition is addition mod `2^64`, so the int64 sum in
  any association order is `wrapInt64` of the mathematical sum.  The revenue
  column `Column.TOTAL_LINE_ITEM_LEVEL_ALL_REVENUE` is kept as the raw string
  because the code coerces it with `.astype(float)`, which raises on an
  unparsable value; revenue values are modelled as exact rationals `ℚ`.
* `NaN` cells (a missing list element via `.str[i]`, or a failed
  `.str.extract`) are modelled as `Option.none`.  pandas comparisons and
  logical `|`/`&` on such cells treat `NaN` as false, and
  `groupby(...)` drops rows whose key contains `NaN` (`dropna=True`);
  both behaviours are reproduced below.
* A raised pandas exception (e.g. `.astype(float)` on a bad value) makes the
  whole `transform_report_data` call fail; `transform` returns `Option.none`
  in that case.
-/
import Mathlib

set_option maxRecDepth 10000

/-- One row of the raw report table read by `pd.read_csv` in
`transform_report_data` (src/main.py line 61).  `impressions` and
`totalAdRequests` are cells of int64 columns: every value read lies in
`[-2^63, 2^63)`, and all arithmetic the code performs on these columns is
64-bit two's-complement (see `wrapInt64`). -/
structure RawRow where
  date : Nat × Nat × Nat
  adUnitName : String
  impressions : Int
  revenue : String
  totalAdRequests : Int
deriving DecidableEq

/-- A raw row paired with its revenue parsed as a number, the result of
`astype(float)` on the revenue column (src/main.py line 74). -/
structure PRow where
  row : RawRow
  rev : ℚ
deriving DecidableEq

/-- The grouping key `(date, device_type, section, sub_section)` used by the
`groupby` on src/main.py line 99. -/
abbrev GroupKey := (Nat × Nat × Nat) × String × String × String

/-- One row of the aggregated output table of `transform_report_data`. -/
structure AggRow where
  date : Nat × Nat × Nat
  device_type : String
  section' : String
  sub_section : String
  impressions : Int
  revenue : ℚ
  total_ad_requests : Int
deriving DecidableEq

/-- First character of the hierarchy delimiter literal on src/main.py
line 65: the source bytes are `c3 82 c2 bb`, i.e. the two code points
U+00C2 U+00BB. -/
def sepChar0 : Char := Char.ofNat 0xC2

/-- Second character of the hierarchy delimiter literal (U+00BB). -/
def sepChar1 : Char := Char.ofNat 0xBB

/-- `str.split` on the two-character delimiter `"Â»"` (src/main.py line 65):
non-overlapping, left to right, keeping empty segments, always returning at
least one segment.  `acc` holds the current segment reversed. -/
def splitSep : List Char → List Char → List (List Char)
  | [], acc => [acc.reverse]
  | [c], acc => [(c :: acc).reverse]
  | c1 :: c2 :: rest, acc =>
    if c1 = sepChar0 ∧ c2 = sepChar1 then acc.reverse :: splitSep rest []
    else splitSep (c2 :: rest) (c1 :: acc)

/-- The list stored in the `AD_UNIT_ALL_LEVEL` column for one row. -/
def adUnitAllLevel (r : RawRow) : List (List Char) :=
  splitSep r.adUnitName.data []

/-- Characters matched by the character class `[a-zA-Z_.0-9]` of the
regex on src/main.py line 62. -/
def isWordChar (c : Char) : Bool :=
  decide (97 ≤ c.toNat ∧ c.toNat ≤ 122) ||
  decide (65 ≤ c.toNat ∧ c.toNat ≤ 90) ||
  decide (48 ≤ c.toNat ∧ c.toNat ≤ 57) ||
  c = '_' || c = '.'

/-- Characters matched by the regex token `\s` on a `str` pattern — Python's
Unicode whitespace (`Py_UNICODE_ISSPACE`): the ASCII whitespace `\t\n\v\f\r`
and space, the C0 separators U+001C-U+001F, NEL U+0085, NBSP U+00A0, and the
Unicode space-separator characters.  `float()` strips the same set. -/
def isSpaceChar (c : Char) : Bool :=
  decide (9 ≤ c.toNat ∧ c.toNat ≤ 13) || c.toNat = 32 ||
  decide (28 ≤ c.toNat ∧ c.toNat ≤ 31) ||
  c.toNat = 0x85 || c.toNat = 0xA0 || c.toNat = 0x1680 ||
  decide (0x2000 ≤ c.toNat ∧ c.toNat ≤ 0x200A) ||
  c.toNat = 0x2028 || c.toNat = 0x2029 || c.toNat = 0x202F ||
  c.toNat = 0x205F || c.toNat = 0x3000

/-- ASCII decimal digits, the class `[0-9]`. -/
def isDigitChar (c : Char) : Bool :=
  decide (48 ≤ c.toNat ∧ c.toNat ≤ 57)

/-- Attempt to match the regex `([a-zA-Z_.0-9]+)\s\([0-9]+\)` at the start of
`cs`, returning the first capture group.  The greedy `+` over a class that
excludes `\s` and `)` means the maximal run is the only candidate. -/
def matchAt (cs : List Char) : Option (List Char) :=
  if (cs.takeWhile isWordChar).isEmpty then none
  else
    match cs.dropWhile isWordChar with
    | sp :: '(' :: rest =>
      if isSpaceChar sp then
        match rest.takeWhile isDigitChar, rest.dropWhile isDigitChar with
        | _ :: _, ')' :: _ => some (cs.takeWhile isWordChar)
        | _, _ => none
      else none
    | _ => none

/-- `re.search` semantics of `Series.str.extract` with the pattern of
src/main.py line 62: the match at the leftmost position where one exists. -/
def searchExtract : List Char → Option (List Char)
  | [] => none
  | c :: rest =>
    match matchAt (c :: rest) with
    | some w => some w
    | none => searchExtract rest

/-- The `ad_unit_level_0` column (src/main.py line 66): label extracted from
segment 0; `none` models `NaN`. -/
def adUnitLevel0 (r : RawRow) : Option String :=
  ((adUnitAllLevel r).get? 0).bind fun cs => (searchExtract cs).map String.mk

/-- The `section` column (src/main.py line 67): label extracted from
segment 1. -/
def sectionLabel (r : RawRow) : Option String :=
  ((adUnitAllLevel r).get? 1).bind fun cs => (searchExtract cs).map String.mk

/-- The `sub_section` column (src/main.py line 68): label extracted from
segment 2. -/
def subSectionLabel (r : RawRow) : Option String :=
  ((adUnitAllLevel r).get? 2).bind fun cs => (searchExtract cs).map String.mk

/-- The `ad_unit_name` column (src/main.py line 69): label extracted from the
last segment (`.str[-1]`).  Unused downstream: the projection on line 98
drops it. -/
def adUnitNameLabel (r : RawRow) : Option String :=
  (adUnitAllLevel r).getLast?.bind fun cs => (searchExtract cs).map String.mk

/-- The `Series.replace` mapping applied to `device_type`
(src/main.py lines 75-77): listed values are replaced, others kept
verbatim. -/
def deviceMap (s : String) : String :=
  if s = "20minutes_web" then "Desktop"
  else if s = "20minutes_web_video_P2" then "Desktop"
  else if s = "20minutes_mobile" then "Mobile Web"
  else s

/-- The `device_type` column: a copy of `ad_unit_level_0` (line 70) run
through `deviceMap` (lines 75-77); `NaN` stays `NaN`. -/
def deviceTypeOf (r : RawRow) : Option String :=
  (adUnitLevel0 r).map deviceMap

/-- Filter 1 (src/main.py lines 86-88): platform inclusion.  A `NaN`
`ad_unit_level_0` compares unequal to every string, hence `false`. -/
def filter_1 (r : RawRow) : Bool :=
  (adUnitLevel0 r == some "20minutes_web") ||
  (adUnitLevel0 r == some "20minutes_web_video_P2") ||
  (adUnitLevel0 r == some "20minutes_mobile")

/-- Python `str.endswith` lifted to an optional cell; pandas treats the `NaN`
result of `.str.endswith` as false when the mask is applied. -/
def endsWithOpt (o : Option String) (suffix : String) : Bool :=
  match o with
  | some s => suffix.data.isSuffixOf s.data
  | none => false

/-- Filter 2 (src/main.py lines 91-93): content-type inclusion. -/
def filter_2 (r : RawRow) : Bool :=
  endsWithOpt (subSectionLabel r) "_Diapo" ||
  endsWithOpt (subSectionLabel r) "_art" ||
  (sectionLabel r == some "amp")

/-- The combined row mask `filter_1 & filter_2` (src/main.py line 95). -/
def keeps (r : RawRow) : Bool :=
  filter_1 r && filter_2 r

/-- The grouping key of a row, `none` when any component is `NaN`; `groupby`
(src/main.py line 99) silently drops such rows (`dropna=True`). -/
def rowKey (r : RawRow) : Option GroupKey :=
  match deviceTypeOf r, sectionLabel r, subSectionLabel r with
  | some d, some s, some ss => some (r.date, d, s, ss)
  | _, _, _ => none

/-- Python `float(str)`: optional surrounding whitespace and sign, then
digits with an optional fraction part (at least one digit overall) and an
optional exponent. -/
def digitsToNat (ds : List Char) : Nat :=
  ds.foldl (fun acc c => 10 * acc + (c.toNat - 48)) 0

/-- Characters that may occur inside a PEP 515 digit group: digits and the
grouping underscore. -/
def isDigitU (c : Char) : Bool :=
  isDigitChar c || c = '_'

/-- Continuation of a digit group: underscores only between digits. -/
def validDigitGroupAux : List Char → Bool
  | [] => true
  | ['_'] => false
  | '_' :: c :: rest => isDigitChar c && validDigitGroupAux rest
  | c :: rest => isDigitChar c && validDigitGroupAux rest

/-- A Python `digitpart`: `digit (('_')? digit)*` — nonempty, starting and
ending with a digit, no adjacent underscores. -/
def validDigitGroup : List Char → Bool
  | [] => false
  | c :: rest => isDigitChar c && validDigitGroupAux rest

/-- Parse an optional exponent suffix `e[+-]?digitpart`; `[]` means exponent
0, anything else unparsable. -/
def parseExpSuffix : List Char → Option Int
  | [] => some 0
  | e :: rest =>
    if e = 'e' ∨ e = 'E' then
      match rest with
      | '+' :: ds =>
        if validDigitGroup ds then some (digitsToNat (ds.filter isDigitChar)) else none
      | '-' :: ds =>
        if validDigitGroup ds then some (-(digitsToNat (ds.filter isDigitChar) : Int))
        else none
      | ds =>
        if validDigitGroup ds then some (digitsToNat (ds.filter isDigitChar)) else none
    else none

/-- Ten to an integer power, as a rational. -/
def qpow10 (e : Int) : ℚ :=
  if 0 ≤ e then ((10 : ℚ) ^ e.toNat) else 1 / ((10 : ℚ) ^ (-e).toNat)

/-- Parse the unsigned mantissa-and-exponent body of a float literal:
`digitpart? '.' digitpart? | digitpart`, at least one digit, then an
optional exponent; underscores group digits per PEP 515. -/
def parseFloatBody (cs : List Char) : Option ℚ :=
  let ipRaw := cs.takeWhile isDigitU
  let ip := ipRaw.filter isDigitChar
  match cs.dropWhile isDigitU with
  | '.' :: rest =>
    let fpRaw := rest.takeWhile isDigitU
    let fp := fpRaw.filter isDigitChar
    if (ipRaw.isEmpty || validDigitGroup ipRaw) &&
        (fpRaw.isEmpty || validDigitGroup fpRaw) &&
        !(ipRaw.isEmpty && fpRaw.isEmpty) then
      (parseExpSuffix (rest.dropWhile isDigitU)).map fun e =>
        ((digitsToNat ip : ℚ) + (digitsToNat fp : ℚ) / (10 : ℚ) ^ fp.length) * qpow10 e
    else none
  | rest =>
    if validDigitGroup ipRaw then
      (parseExpSuffix rest).map fun e => (digitsToNat ip : ℚ) * qpow10 e
    else none

/-- Python `float` applied to a string, as done per revenue cell by
`.astype(float)` (src/main.py line 74); `none` models a raised
`ValueError`.  Surrounding Unicode whitespace is stripped and PEP 515
underscore grouping accepted, as `float` does.  The non-finite literals
(`inf`, `infinity`, `nan`, case-insensitive) and non-ASCII decimal digits,
which `float` also accepts, have no counterpart in the exact-rational value
model and stay outside it; the report source's revenue column carries only
ASCII decimal numerals. -/
def parseFloat (s : String) : Option ℚ :=
  let cs := s.data.dropWhile isSpaceChar
  let cs := (cs.reverse.dropWhile isSpaceChar).reverse
  match cs with
  | '+' :: rest => parseFloatBody rest
  | '-' :: rest => (parseFloatBody rest).map Neg.neg
  | rest => parseFloatBody rest

/-- `astype(float)` over the whole revenue column: succeeds only when every
cell parses, pairing each row with its numeric revenue. -/
def parseRows : List RawRow → Option (List PRow)
  | [] => some []
  | r :: rs =>
    match parseFloat r.revenue, parseRows rs with
    | some q, some ps => some (⟨r, q⟩ :: ps)
    | _, _ => none

/-- Rows surviving the mask `filter_1 & filter_2`, paired with their keys by
`groupby`; rows whose key has a `NaN` component are dropped here
(`dropna=True`). -/
def keyedOf (prs : List PRow) : List (GroupKey × PRow) :=
  (prs.filter fun p => keeps p.row).filterMap fun p =>
    (rowKey p.row).map fun k => (k, p)

/-- The distinct group keys. -/
def groupKeys (prs : List PRow) : List GroupKey :=
  ((keyedOf prs).map Prod.fst).dedup

/-- Strict code-point order on strings, Python's `<` used by the groupby
sort. -/
def strLtB : List Char → List Char → Bool
  | _, [] => false
  | [], _ :: _ => true
  | a :: as, b :: bs => decide (a.toNat < b.toNat) || (a = b && strLtB as bs)

/-- Lexicographic order on calendar-date triples. -/
def dateLeB (a b : Nat × Nat × Nat) : Bool :=
  decide (a.1 < b.1) ||
  (a.1 = b.1 && (decide (a.2.1 < b.2.1) ||
    (a.2.1 = b.2.1 && decide (a.2.2 ≤ b.2.2))))

/-- The ascending lexicographic order on grouping keys used by
`groupby(sort=True)`. -/
def keyLeB (a b : GroupKey) : Bool :=
  (dateLeB a.1 b.1 && !dateLeB b.1 a.1) ||
  (a.1 = b.1 &&
    (strLtB a.2.1.data b.2.1.data ||
      (a.2.1 = b.2.1 &&
        (strLtB a.2.2.1.data b.2.2.1.data ||
          (a.2.2.1 = b.2.2.1 &&
            (strLtB a.2.2.2.data b.2.2.2.data || a.2.2.2 = b.2.2.2))))))

/-- `keyLeB` as a decidable relation for `List.insertionSort`. -/
def keyLe (a b : GroupKey) : Prop := keyLeB a b = true

instance : DecidableRel keyLe := fun a b => Bool.decEq (keyLeB a b) true

/-- Group keys in the ascending order `groupby(sort=True)` emits. -/
def sortedKeys (prs : List PRow) : List GroupKey :=
  (groupKeys prs).insertionSort keyLe

/-- Reduction of an integer to the 64-bit two's-complement value numpy's
int64 arithmetic produces: the representative of its class mod `2^64` in
`[-2^63, 2^63)`.  int64 addition wraps silently on overflow, and since
wrapping addition is addition mod `2^64`, the int64 sum of in-range cells in
any association order is `wrapInt64` of their mathematical sum. -/
def wrapInt64 (n : Int) : Int :=
  (n + 2 ^ 63) % 2 ^ 64 - 2 ^ 63

/-- The aggregated row for one group: the key columns together with the sums
of the three metric columns over the group (src/main.py line 99).  The two
int64 columns are summed with 64-bit wrapping; the float column is summed as
exact rationals. -/
def mkAgg (k : GroupKey) (grp : List (GroupKey × PRow)) : AggRow :=
  ⟨k.1, k.2.1, k.2.2.1, k.2.2.2,
    wrapInt64 (grp.map fun kp => kp.2.row.impressions).sum,
    (grp.map fun kp => kp.2.rev).sum,
    wrapInt64 (grp.map fun kp => kp.2.row.totalAdRequests).sum⟩

/-- Filter, project and aggregate the parsed table
(src/main.py lines 84-99). -/
def aggregate (prs : List PRow) : List AggRow :=
  (sortedKeys prs).map fun k =>
    mkAgg k ((keyedOf prs).filter fun kp => decide (kp.1 = k))

/-- `transform_report_data` (src/main.py lines 54-101): parse the revenue
column (raising — `none` — on any unparsable cell), then filter, project and
aggregate. -/
def transform (rows : List RawRow) : Option (List AggRow) :=
  (parseRows rows).map aggregate

/-- Decimal digits of `n` in order, empty on fuel exhaustion (the fuel
`n + 1` always suffices). -/
def natCharsAux : Nat → Nat → List Char
  | 0, _ => []
  | fuel + 1, n =>
    if n = 0 then []
    else natCharsAux fuel (n / 10) ++ [Char.ofNat (48 + n % 10)]

/-- Decimal representation of a natural number. -/
def natChars (n : Nat) : List Char :=
  if n = 0 then ['0'] else natCharsAux (n + 1) n

/-- Left-pad with `'0'` to width `w`. -/
def padZeros (w : Nat) (s : List Char) : List Char :=
  List.replicate (w - s.length) '0' ++ s

/-- The `date` column as `to_csv` renders the midnight-only datetime64
column: ISO `YYYY-MM-DD`, zero padded. -/
def formatDate (d : Nat × Nat × Nat) : String :=
  String.mk (padZeros 4 (natChars d.1) ++ '-' :: padZeros 2 (natChars d.2.1) ++
    '-' :: padZeros 2 (natChars d.2.2))

/-- An int64 cell as `to_csv` renders it. -/
def intStr (i : Int) : String :=
  if i < 0 then String.mk ('-' :: natChars i.natAbs) else String.mk (natChars i.natAbs)

/-- Least `k` (searched up to the fuel) with `den ∣ 10 ^ k`. -/
def findPow10 : Nat → Nat → Nat → Option Nat
  | 0, _, _ => none
  | fuel + 1, den, k => if den ∣ 10 ^ k then some k else findPow10 fuel den (k + 1)

/-- A float64 cell as `to_csv` renders it: the shortest decimal expansion,
with at least one fractional digit (`8.0`, `5.5`).  Exact rationals stand in
for binary floats, and the thresholds at which `repr(float)` switches to exponent form
are not modelled; for a denominator that is not of the form `2^a * 5^b`
(unreachable for values of the pipeline) a fraction is emitted. -/
def formatRat (q : ℚ) : String :=
  match findPow10 (q.den + 1) q.den 0 with
  | some k =>
    let scaled := q.num.natAbs * (10 ^ k / q.den)
    let ip := natChars (scaled / 10 ^ k)
    let fr := if k = 0 then ['0'] else padZeros k (natChars (scaled % 10 ^ k))
    let body := ip ++ '.' :: fr
    String.mk (if q.num < 0 then '-' :: body else body)
  | none => String.mk (natChars q.num.natAbs ++ '/' :: natChars q.den)

/-- Characters that do not force `csv.QUOTE_MINIMAL` quoting: anything but
the delimiter, the quote char and the line-terminator characters. -/
def csvSafeChar (c : Char) : Bool :=
  !(c = ',' || c = Char.ofNat 34 || c = '\n' || c = '\r')

/-- Double every quote character, the `QUOTE_MINIMAL` escape. -/
def escapeQuotes : List Char → List Char
  | [] => []
  | c :: cs =>
    if c = Char.ofNat 34 then c :: c :: escapeQuotes cs else c :: escapeQuotes cs

/-- One CSV cell under `csv.QUOTE_MINIMAL`, as used by `to_csv`
(src/main.py line 111). -/
def csvField (s : String) : String :=
  if s.data.all csvSafeChar then s
  else String.mk (Char.ofNat 34 :: (escapeQuotes s.data ++ [Char.ofNat 34]))

/-- The cells of one aggregated row, in the column order of
`columns_to_display` (src/main.py lines 96-97). -/
def aggRowFields (a : AggRow) : List String :=
  [formatDate a.date, a.device_type, a.section', a.sub_section,
    intStr a.impressions, formatRat a.revenue, intStr a.total_ad_requests]

/-- The header line `to_csv` writes with `index=False`. -/
def csvHeader : String :=
  "date,device_type,section,sub_section,impressions,revenue,total_ad_requests"

/-- Join strings with a separator. -/
def sepJoin (sep : String) : List String → String
  | [] => ""
  | [x] => x
  | x :: y :: xs => x ++ sep ++ sepJoin sep (y :: xs)

/-- One data line of the CSV. -/
def rowLine (a : AggRow) : String :=
  sepJoin "," ((aggRowFields a).map csvField)

/-- `df_report.to_csv(f, index=False)` (src/main.py line 111): the header
line and one line per row, each terminated by `"\n"`. -/
def toCsv (t : List AggRow) : String :=
  sepJoin "\n" (csvHeader :: t.map rowLine) ++ "\n"

/-- The byte content `send_to_gs` uploads for a source table, `none` when the
transform raises.  UTF-8 encoding of equal strings is equal, so the object
content is modelled by the string itself. -/
def publishCsv (rows : List RawRow) : Option String :=
  (transform rows).map toCsv

/-- Modelled from the spec: the device mapping table as §4.2 step 3 and the
claim state it — `20minutes_web` and `20minutes_web_video_P2` to `Desktop`,
`20minutes_mobile` to `Mobile Web`, any other label verbatim.  Stated
independently of `deviceMap` to compare the two. -/
def deviceMapSpec (s : String) : String :=
  if s = "20minutes_web" ∨ s = "20minutes_web_video_P2" then "Desktop"
  else if s = "20minutes_mobile" then "Mobile Web"
  else s

/-- The scenario row of the spec, delimiter spelled as in the spec: the
single character `»` (U+00BB). -/
def specDelimRow : RawRow :=
  ⟨(2024, 1, 1), "20minutes_web (1) » News (2) » Photos_Diapo (3)", 100, "5.5", 120⟩

/-- The scenario row with the delimiter the code actually splits on: the
two-character sequence `Â»` (U+00C2 U+00BB). -/
def codeDelimRow : RawRow :=
  ⟨(2024, 1, 1), "20minutes_web (1) Â» News (2) Â» Photos_Diapo (3)", 100, "5.5", 120⟩

/-- The aggregated row the scenario expects. -/
def scenarioAgg : AggRow :=
  ⟨(2024, 1, 1), "Desktop", "News", "Photos_Diapo", 100, (11 : ℚ) / 2, 120⟩

/-- Row with `section = "amp"` and a present `sub_section = "Other"` on an
included platform. -/
def ampOtherRow : RawRow :=
  ⟨(2024, 1, 1), "20minutes_mobile (1) Â» amp (2) Â» Other (3)", 10, "2.5", 12⟩

/-- The aggregated output row for `ampOtherRow`. -/
def ampOtherAgg : AggRow :=
  ⟨(2024, 1, 1), "Mobile Web", "amp", "Other", 10, (5 : ℚ) / 2, 12⟩

/-- Row with `section = "amp"` and an absent `sub_section` (only two path
segments) on an included platform: it passes both filters but its grouping
key is incomplete. -/
def ampNoSubRow : RawRow :=
  ⟨(2024, 1, 1), "20minutes_mobile (1) Â» amp (2)", 10, "2.5", 12⟩

/-- Row passing both filters whose middle segment matches no label, so
`section` is absent while `sub_section` ends in `_Diapo`. -/
def noSectionRow : RawRow :=
  ⟨(2024, 1, 1), "20minutes_web (1) Â»xÂ» Photos_Diapo (3)", 7, "1.0", 9⟩

/-- A row every stage accepts. -/
def plainGoodRow : RawRow :=
  ⟨(2024, 1, 1), "20minutes_web (1) Â» News (2) Â» Photos_Diapo (3)", 1, "5.5", 2⟩

/-- A row whose revenue cell `float` cannot parse. -/
def badRevenueRow : RawRow :=
  ⟨(2024, 1, 1), "20minutes_other (1) Â» News (2) Â» Photos_Diapo (3)", 3, "abc", 4⟩

/-- The aggregated output of `[plainGoodRow]` alone. -/
def plainGoodAgg : AggRow :=
  ⟨(2024, 1, 1), "Desktop", "News", "Photos_Diapo", 1, (11 : ℚ) / 2, 2⟩

/-- A retained row with int64 impressions `2^62`. -/
def bigRowA : RawRow :=
  ⟨(2024, 1, 1), "20minutes_web (1) Â» News (2) Â» Photos_Diapo (3)", 2 ^ 62, "1.0", 1⟩

/-- A second retained row with the same grouping key and impressions
`2^62`. -/
def bigRowB : RawRow :=
  ⟨(2024, 1, 1), "20minutes_web (9) Â» News (8) Â» Photos_Diapo (7)", 2 ^ 62, "1.0", 1⟩

/-- The aggregated output of `[bigRowA, bigRowB]`: the int64 impression sum
wraps to `-2^63`. -/
def overflowAgg : AggRow :=
  ⟨(2024, 1, 1), "Desktop", "News", "Photos_Diapo", -(2 ^ 63), (2 : ℚ), 2⟩

/-- The grouping key of an output row. -/
def aggKey (a : AggRow) : GroupKey :=
  (a.date, a.device_type, a.section', a.sub_section)

/-- The input rows that survive both filters and carry the grouping key
`k`. -/
def rowsWithKey (rows : List RawRow) (k : GroupKey) : List RawRow :=
  (rows.filter keeps).filter fun r => decide (rowKey r = some k)

/-- The input rows that survive both filters and whose grouping key is
complete (no `NaN` component). -/
def keptKeyedRows (rows : List RawRow) : List RawRow :=
  (rows.filter keeps).filter fun r => (rowKey r).isSome

unseal Rat.add Rat.mul Rat.inv Rat.ofScientific

/-- Splitting a sum over a list along a Boolean predicate. -/
theorem sum_map_filter_split {α M : Type _} [AddCommMonoid M] (p : α → Bool) (f : α → M)
    (xs : List α) :
    ((xs.filter p).map f).sum + ((xs.filter fun a => !p a).map f).sum = (xs.map f).sum := by
  induction xs with
  | nil => simp
  | cons x xs ih =>
    by_cases h : p x
    · simp [List.filter_cons, h, add_assoc, ih]
    · simp [List.filter_cons, h, add_left_comm, ih]

/-- Summing group sums over a duplicate-free list of keys covering a list
equals summing over the list itself. -/
theorem sum_map_partition {α κ M : Type _} [DecidableEq κ] [AddCommMonoid M]
    (key : α → κ) (f : α → M) :
    ∀ (K : List κ) (xs : List α), K.Nodup → (∀ x ∈ xs, key x ∈ K) →
      (K.map fun k => ((xs.filter fun x => decide (key x = k)).map f).sum).sum
        = (xs.map f).sum
  | [], xs, _, hcov => by
    cases xs with
    | nil => simp
    | cons x xs => exact absurd (hcov x (by simp)) (by simp)
  | k :: K, xs, hnd, hcov => by
    have hk : k ∉ K := (List.nodup_cons.mp hnd).1
    have hndK : K.Nodup := (List.nodup_cons.mp hnd).2
    have hstep : ∀ k' ∈ K,
        ((xs.filter fun x => !decide (key x = k)).filter fun x => decide (key x = k'))
          = xs.filter fun x => decide (key x = k') := by
      intro k' hk'
      rw [List.filter_filter]
      apply List.filter_congr
      intro x _
      have hkk : ¬ k' = k := fun hh => hk (hh ▸ hk')
      by_cases h : key x = k'
      · simp [h, hkk]
      · simp [h]
    have hcov' : ∀ x ∈ xs.filter fun x => !decide (key x = k), key x ∈ K := by
      intro x hx
      have hx' := List.mem_filter.mp hx
      have hne : ¬ key x = k := by simpa using hx'.2
      cases hcov x hx'.1 with
      | head => exact absurd rfl hne
      | tail _ h => exact h
    calc ((k :: K).map fun k' =>
            ((xs.filter fun x => decide (key x = k')).map f).sum).sum
        = ((xs.filter fun x => decide (key x = k)).map f).sum +
            (K.map fun k' => ((xs.filter fun x => decide (key x = k')).map f).sum).sum := by
          simp
      _ = ((xs.filter fun x => decide (key x = k)).map f).sum +
            (K.map fun k' =>
              (((xs.filter fun x => !decide (key x = k)).filter
                  fun x => decide (key x = k')).map f).sum).sum := by
          have hmc : (K.map fun k' => ((xs.filter fun x => decide (key x = k')).map f).sum)
              = K.map fun k' =>
                  (((xs.filter fun x => !decide (key x = k)).filter
                      fun x => decide (key x = k')).map f).sum :=
            List.map_congr_left fun k' hk' => by rw [hstep k' hk']
          rw [hmc]
      _ = ((xs.filter fun x => decide (key x = k)).map f).sum +
            ((xs.filter fun x => !decide (key x = k)).map f).sum := by
          rw [sum_map_partition key f K _ hndK hcov']
      _ = (xs.map f).sum := sum_map_filter_split _ f xs

/-- What a successful `parseRows` yields: the same rows, each paired with its
parsed revenue. -/
theorem parseRows_sound {rows : List RawRow} {prs : List PRow}
    (h : parseRows rows = some prs) :
    prs.map PRow.row = rows ∧ ∀ p ∈ prs, parseFloat p.row.revenue = some p.rev := by
  induction rows generalizing prs with
  | nil =>
    simp only [parseRows, Option.some.injEq] at h
    subst h
    simp
  | cons r rs ih =>
    simp only [parseRows] at h
    cases hf : parseFloat r.revenue with
    | none => rw [hf] at h; cases h
    | some q =>
      cases hp : parseRows rs with
      | none => rw [hf, hp] at h; cases h
      | some ps =>
        rw [hf, hp] at h
        simp only [Option.some.injEq] at h
        subst h
        refine ⟨by simp [(ih hp).1], ?_⟩
        intro p hp'
        cases hp' with
        | head => exact hf
        | tail _ hmem => exact (ih hp).2 p hmem

/-- A successful `parseRows` stays successful on any filtered sublist, with
the matching parsed pairs. -/
theorem parseRows_filter (q : RawRow → Bool) {rows : List RawRow} {prs : List PRow}
    (h : parseRows rows = some prs) :
    parseRows (rows.filter q) = some (prs.filter fun p => q p.row) := by
  induction rows generalizing prs with
  | nil =>
    simp only [parseRows, Option.some.injEq] at h
    subst h
    simp [parseRows]
  | cons r rs ih =>
    simp only [parseRows] at h
    cases hf : parseFloat r.revenue with
    | none => rw [hf] at h; cases h
    | some v =>
      cases hp : parseRows rs with
      | none => rw [hf, hp] at h; cases h
      | some ps =>
        rw [hf, hp] at h
        simp only [Option.some.injEq] at h
        subst h
        by_cases hq : q r
        · simp [List.filter_cons, hq, parseRows, hf, ih hp]
        · simp [List.filter_cons, hq, ih hp]

/-- One bad revenue cell anywhere makes `parseRows` fail. -/
theorem parseRows_none {rows : List RawRow} {r : RawRow}
    (hmem : r ∈ rows) (hbad : parseFloat r.revenue = none) :
    parseRows rows = none := by
  induction rows with
  | nil => cases hmem
  | cons a as ih =>
    cases hmem with
    | head => simp [parseRows, hbad]
    | tail _ hmem' =>
      cases hf : parseFloat a.revenue <;> simp [parseRows, hf, ih hmem']

/-- Removing only elements that the optional map sends to `none` leaves
`filterMap` unchanged. -/
theorem filterMap_filter_eq {α β : Type _} (g : α → Option β) (q : α → Bool)
    (xs : List α) (hq : ∀ x ∈ xs, q x = false → g x = none) :
    (xs.filter q).filterMap g = xs.filterMap g := by
  induction xs with
  | nil => rfl
  | cons x xs ih =>
    have ih' := ih fun x hx => hq x (List.mem_cons_of_mem _ hx)
    by_cases h : q x
    · simp [List.filter_cons, h, List.filterMap_cons, ih']
    · have hg : g x = none := hq x (List.mem_cons_self _ _) (eq_false_of_ne_true h)
      simp [List.filter_cons, eq_false_of_ne_true h, List.filterMap_cons, hg, ih']

/-- Two Boolean filters commute. -/
theorem filter_swap {α : Type _} (p q : α → Bool) (l : List α) :
    (l.filter p).filter q = (l.filter q).filter p := by
  rw [List.filter_filter, List.filter_filter]
  exact List.filter_congr fun a _ => Bool.and_comm _ _

/-- Projecting the rows out of a filter that only looks at rows. -/
theorem map_row_filter (q : RawRow → Bool) (l : List PRow) :
    (l.filter fun p => q p.row).map PRow.row = (l.map PRow.row).filter q := by
  induction l with
  | nil => rfl
  | cons p ps ih =>
    by_cases h : q p.row
    · simp [List.filter_cons, h, ih]
    · simp [List.filter_cons, eq_false_of_ne_true h, ih]

/-- The rows underlying the keyed pairs are exactly the rows with a complete
key. -/
theorem filterMap_key_map_snd (l : List PRow) :
    (l.filterMap fun p => (rowKey p.row).map fun k => (k, p)).map Prod.snd
      = l.filter fun p => (rowKey p.row).isSome := by
  induction l with
  | nil => rfl
  | cons p ps ih =>
    cases h : rowKey p.row with
    | none => simp [List.filterMap_cons, h, List.filter_cons, ih]
    | some k => simp [List.filterMap_cons, h, List.filter_cons, ih]

/-- The keyed pairs with key `k` are the rows keyed `k`, paired with `k`. -/
theorem filterMap_key_filter_map_snd (k : GroupKey) (l : List PRow) :
    ((l.filterMap fun p => (rowKey p.row).map fun k' => (k', p)).filter
        fun kp => decide (kp.1 = k)).map Prod.snd
      = l.filter fun p => decide (rowKey p.row = some k) := by
  induction l with
  | nil => rfl
  | cons p ps ih =>
    cases h : rowKey p.row with
    | none => simp [List.filterMap_cons, h, List.filter_cons, ih]
    | some k' =>
      by_cases hk : k' = k
      · subst hk
        simp [List.filterMap_cons, h, List.filter_cons, ih]
      · simp [List.filterMap_cons, h, List.filter_cons, hk, ih, Option.some.injEq]

/-- Filtering the parsed table by a predicate that only discards rows that
are unkept or keyless does not change the keyed pairs. -/
theorem keyedOf_filter (q : RawRow → Bool)
    (hq : ∀ r, q r = false → keeps r = false ∨ rowKey r = none)
    (prs : List PRow) :
    keyedOf (prs.filter fun p => q p.row) = keyedOf prs := by
  unfold keyedOf
  have hswap : ((prs.filter fun p => q p.row).filter fun p => keeps p.row)
      = (prs.filter fun p => keeps p.row).filter fun p => q p.row :=
    filter_swap _ _ prs
  rw [hswap]
  apply filterMap_filter_eq
  intro p hp hqp
  have hkeep : keeps p.row = true := (List.mem_filter.mp hp).2
  cases hq p.row hqp with
  | inl h => rw [h] at hkeep; cases hkeep
  | inr h => simp [h]

/-- Deleting input rows that are dropped anyway — by the filters or by the
grouping's `NaN`-key rule — does not change a successful transform. -/
theorem transform_filter_eq (q : RawRow → Bool)
    (hq : ∀ r, q r = false → keeps r = false ∨ rowKey r = none)
    {rows : List RawRow} {out : List AggRow} (h : transform rows = some out) :
    transform (rows.filter q) = some out := by
  unfold transform at h ⊢
  cases hp : parseRows rows with
  | none => rw [hp] at h; cases h
  | some prs =>
    rw [hp] at h
    rw [parseRows_filter q hp]
    simp only [Option.map_some']
    have : aggregate (prs.filter fun p => q p.row) = aggregate prs := by
      unfold aggregate sortedKeys groupKeys
      rw [keyedOf_filter q hq]
    rw [this]
    simpa using h

/-- Every keyed pair's key occurs among the group keys. -/
theorem key_mem_groupKeys {prs : List PRow} {kp : GroupKey × PRow}
    (h : kp ∈ keyedOf prs) : kp.1 ∈ groupKeys prs :=
  List.mem_dedup.mpr (List.mem_map_of_mem Prod.fst h)

/-- Summing per-group sums over the sorted keys equals summing over all
keyed pairs. -/
theorem sum_over_keyed {M : Type _} [AddCommMonoid M] (f : GroupKey × PRow → M)
    (prs : List PRow) :
    ((sortedKeys prs).map fun k =>
        (((keyedOf prs).filter fun kp => decide (kp.1 = k)).map f).sum).sum
      = ((keyedOf prs).map f).sum := by
  have hperm : List.Perm (sortedKeys prs) (groupKeys prs) := List.perm_insertionSort _ _
  rw [List.Perm.sum_eq (hperm.map _)]
  exact sum_map_partition Prod.fst f (groupKeys prs) (keyedOf prs)
    (List.nodup_dedup _) fun kp hk => key_mem_groupKeys hk

/-- Unpacking a successful transform. -/
theorem transform_eq_some {rows : List RawRow} {out : List AggRow}
    (h : transform rows = some out) :
    ∃ prs, parseRows rows = some prs ∧ aggregate prs = out := by
  unfold transform at h
  cases hp : parseRows rows with
  | none => rw [hp] at h; cases h
  | some prs =>
    rw [hp] at h
    exact ⟨prs, rfl, by simpa using h⟩

/-- The rows underlying the keyed pairs: kept rows with a complete key. -/
theorem keyedOf_map_snd (prs : List PRow) :
    (keyedOf prs).map Prod.snd
      = (prs.filter fun p => keeps p.row).filter fun p => (rowKey p.row).isSome :=
  filterMap_key_map_snd _

/-- Projecting the kept complete-key parsed rows back to raw rows. -/
theorem keptKeyed_map_eq {rows : List RawRow} {prs : List PRow}
    (hp : parseRows rows = some prs) :
    ((prs.filter fun p => keeps p.row).filter fun p => (rowKey p.row).isSome).map PRow.row
      = keptKeyedRows rows := by
  rw [map_row_filter fun r => (rowKey r).isSome]
  rw [map_row_filter keeps]
  rw [(parseRows_sound hp).1]
  rfl

/-- Projecting the kept rows with key `k` back to raw rows. -/
theorem rowsWithKey_map_eq {rows : List RawRow} {prs : List PRow}
    (hp : parseRows rows = some prs) (k : GroupKey) :
    ((prs.filter fun p => keeps p.row).filter
        fun p => decide (rowKey p.row = some k)).map PRow.row
      = rowsWithKey rows k := by
  rw [map_row_filter fun r => decide (rowKey r = some k)]
  rw [map_row_filter keeps]
  rw [(parseRows_sound hp).1]
  rfl

/-- The keys of the aggregated rows are the sorted group keys. -/
theorem aggregate_map_aggKey (prs : List PRow) :
    (aggregate prs).map aggKey = sortedKeys prs := by
  unfold aggregate
  rw [List.map_map]
  exact List.map_id' _

/-- `wrapInt64` absorbs a wrap on the left addend. -/
theorem wrap_add_left (a b : Int) : wrapInt64 (wrapInt64 a + b) = wrapInt64 (a + b) := by
  unfold wrapInt64
  omega

/-- `wrapInt64` absorbs a wrap on the right addend. -/
theorem wrap_add_right (a b : Int) : wrapInt64 (a + wrapInt64 b) = wrapInt64 (a + b) := by
  unfold wrapInt64
  omega

/-- Wrapping each summand under a wrapped total changes nothing: the int64
sum of int64 cells is the wrap of the mathematical sum. -/
theorem wrap_sum_map {α : Type _} (f : α → Int) :
    ∀ l : List α,
      wrapInt64 ((l.map fun a => wrapInt64 (f a)).sum) = wrapInt64 ((l.map f).sum)
  | [] => rfl
  | x :: xs => by
    simp only [List.map_cons, List.sum_cons]
    rw [wrap_add_left, ← wrap_add_right, wrap_sum_map f xs]
    exact wrap_add_right _ _

/-- The int64 impression total of a successful transform: the wrapped sum
over the output equals the wrapped sum over the kept rows whose grouping key
is complete. -/
theorem transform_sum_impressions {rows : List RawRow} {out : List AggRow}
    (h : transform rows = some out) :
    wrapInt64 (out.map AggRow.impressions).sum
      = wrapInt64 ((keptKeyedRows rows).map RawRow.impressions).sum := by
  obtain ⟨prs, hp, hagg⟩ := transform_eq_some h
  subst hagg
  have h1 : (aggregate prs).map AggRow.impressions
      = (sortedKeys prs).map fun k =>
          wrapInt64 (((keyedOf prs).filter fun kp => decide (kp.1 = k)).map
            fun kp => kp.2.row.impressions).sum := by
    unfold aggregate
    rw [List.map_map]
    rfl
  rw [h1,
    wrap_sum_map
      (fun k => (((keyedOf prs).filter fun kp => decide (kp.1 = k)).map
        fun kp => kp.2.row.impressions).sum)
      (sortedKeys prs)]
  congr 1
  calc ((sortedKeys prs).map fun k =>
          (((keyedOf prs).filter fun kp => decide (kp.1 = k)).map
            fun kp => kp.2.row.impressions).sum).sum
      = ((keyedOf prs).map fun kp => kp.2.row.impressions).sum := sum_over_keyed _ prs
    _ = ((((keyedOf prs).map Prod.snd).map PRow.row).map RawRow.impressions).sum := by
        rw [List.map_map, List.map_map]
        rfl
    _ = ((keptKeyedRows rows).map RawRow.impressions).sum := by
        rw [keyedOf_map_snd, keptKeyed_map_eq hp]

/-- The per-group sum of a metric read off the raw row, at rows level. -/
theorem group_metric_sum {rows : List RawRow} {prs : List PRow}
    (hp : parseRows rows = some prs) (k : GroupKey)
    {M : Type _} [AddCommMonoid M] (g : RawRow → M) :
    (((keyedOf prs).filter fun kp => decide (kp.1 = k)).map fun kp => g kp.2.row).sum
      = ((rowsWithKey rows k).map g).sum := by
  have h1 : ((keyedOf prs).filter fun kp => decide (kp.1 = k)).map Prod.snd
      = (prs.filter fun p => keeps p.row).filter
          fun p => decide (rowKey p.row = some k) :=
    filterMap_key_filter_map_snd k _
  calc (((keyedOf prs).filter fun kp => decide (kp.1 = k)).map fun kp => g kp.2.row).sum
      = ((((keyedOf prs).filter fun kp => decide (kp.1 = k)).map Prod.snd).map
          fun p => g p.row).sum := by
        rw [List.map_map]
        rfl
    _ = (((prs.filter fun p => keeps p.row).filter
          fun p => decide (rowKey p.row = some k)).map fun p => g p.row).sum := by
        rw [h1]
    _ = ((rowsWithKey rows k).map g).sum := by
        rw [← rowsWithKey_map_eq hp k, List.map_map]
        rfl

/-- The per-group revenue sum, at rows level: each kept pair's parsed revenue
is what `float` returns on its raw cell. -/
theorem group_rev_sum {rows : List RawRow} {prs : List PRow}
    (hp : parseRows rows = some prs) (k : GroupKey) :
    (((keyedOf prs).filter fun kp => decide (kp.1 = k)).map fun kp => kp.2.rev).sum
      = ((rowsWithKey rows k).map fun r => (parseFloat r.revenue).getD 0).sum := by
  have h1 : ((keyedOf prs).filter fun kp => decide (kp.1 = k)).map Prod.snd
      = (prs.filter fun p => keeps p.row).filter
          fun p => decide (rowKey p.row = some k) :=
    filterMap_key_filter_map_snd k _
  have hcong : ∀ p ∈ (prs.filter fun p => keeps p.row).filter
      fun p => decide (rowKey p.row = some k),
      p.rev = (parseFloat p.row.revenue).getD 0 := by
    intro p hpmem
    have hpp : p ∈ prs := List.mem_of_mem_filter (List.mem_of_mem_filter hpmem)
    rw [(parseRows_sound hp).2 p hpp]
    rfl
  calc (((keyedOf prs).filter fun kp => decide (kp.1 = k)).map fun kp => kp.2.rev).sum
      = ((((keyedOf prs).filter fun kp => decide (kp.1 = k)).map Prod.snd).map
          fun p => p.rev).sum := by
        rw [List.map_map]
        rfl
    _ = (((prs.filter fun p => keeps p.row).filter
          fun p => decide (rowKey p.row = some k)).map fun p => p.rev).sum := by
        rw [h1]
    _ = (((prs.filter fun p => keeps p.row).filter
          fun p => decide (rowKey p.row = some k)).map
            fun p => (parseFloat p.row.revenue).getD 0).sum := by
        rw [List.map_congr_left hcong]
    _ = ((rowsWithKey rows k).map fun r => (parseFloat r.revenue).getD 0).sum := by
        rw [← rowsWithKey_map_eq hp k, List.map_map]
        rfl

/-- C1 counterexample: on `[noSectionRow]` — a row that passes both filters
but whose `section` label is absent — the transform returns the empty table,
whose impression total (0) differs from the total over the filter-passing
input rows (7).  The claimed equality fails at this input. -/
theorem c1_counterexample :
    transform [noSectionRow] = some [] ∧
    ¬ ((([] : List AggRow).map AggRow.impressions).sum
        = ((([noSectionRow] : List RawRow).filter keeps).map RawRow.impressions).sum) := by
  constructor
  · decide
  · decide

/-- C1 (amended): for every input table on which the transform succeeds, the
int64 impression total (summation wrapping mod `2^64` as numpy int64 does)
over the output equals the int64 total over the input rows that pass both
filters and whose grouping key is complete (the grouping silently drops
filter-passing rows with an absent key component). -/
theorem c1_aggregation_sum :
    ∀ (rows : List RawRow) (out : List AggRow), transform rows = some out →
      wrapInt64 (out.map AggRow.impressions).sum
        = wrapInt64 ((keptKeyedRows rows).map RawRow.impressions).sum := by
  intro rows out h
  exact transform_sum_impressions h

/-- Witness for the amended C1 at a concrete input. -/
theorem c1_witness :
    wrapInt64 ([scenarioAgg].map AggRow.impressions).sum
      = wrapInt64 ((keptKeyedRows [codeDelimRow]).map RawRow.impressions).sum :=
  c1_aggregation_sum [codeDelimRow] [scenarioAgg] (by decide)

/-- C2 counterexample: with an unparsable revenue cell in the table the whole
transform fails (`none`), even though the same table without that row
succeeds — the failure is not a per-row exclusion. -/
theorem c2_counterexample :
    transform [plainGoodRow, badRevenueRow] = none ∧
    transform [plainGoodRow] = some [plainGoodAgg] := by
  constructor
  · decide
  · decide

/-- C2 (amended): a row whose revenue cell `float` cannot parse makes the
whole transformation raise (`astype(float)` is applied to the full column
before any filtering), rather than excluding just that row. -/
theorem c2_revenue_fatal :
    ∀ (rows : List RawRow) (r : RawRow), r ∈ rows → parseFloat r.revenue = none →
      transform rows = none := by
  intro rows r hmem hbad
  unfold transform
  rw [parseRows_none hmem hbad]
  rfl

/-- Witness for the amended C2. -/
theorem c2_witness : transform [badRevenueRow] = none :=
  c2_revenue_fatal [badRevenueRow] badRevenueRow (by simp) (by decide)

/-- C3 counterexample: a row with `section = "amp"`, an included platform and
an absent `sub_section` passes Filter B (and Filter A) yet is *not* kept in
the output — the grouping drops it — so "kept in the output regardless of its
sub_section" fails as stated. -/
theorem c3_counterexample :
    sectionLabel ampNoSubRow = some "amp" ∧ filter_1 ampNoSubRow = true ∧
    filter_2 ampNoSubRow = true ∧ transform [ampNoSubRow] = some [] := by
  refine ⟨by decide, by decide, by decide, by decide⟩

/-- C3 (amended): Filter B retains a row iff its `sub_section` ends in
`_Diapo` or `_art` or its `section` equals `amp`; a row with absent
`sub_section` and `section ≠ "amp"` is dropped; `section = "amp"` passes
Filter B regardless of `sub_section`, and such a row is kept in the output
when its sub_section is present (e.g. `sub_section = "Other"`). -/
theorem c3_filter_b :
    (∀ r : RawRow, filter_2 r = true ↔
      ((∃ s, subSectionLabel r = some s ∧ "_Diapo".data.IsSuffix s.data) ∨
       (∃ s, subSectionLabel r = some s ∧ "_art".data.IsSuffix s.data) ∨
       sectionLabel r = some "amp")) ∧
    (∀ r : RawRow, subSectionLabel r = none → sectionLabel r ≠ some "amp" →
      keeps r = false) ∧
    (∀ r : RawRow, sectionLabel r = some "amp" → filter_2 r = true) ∧
    transform [ampOtherRow] = some [ampOtherAgg] := by
  refine ⟨?_, ?_, ?_, by decide⟩
  · intro r
    unfold filter_2 endsWithOpt
    cases hss : subSectionLabel r with
    | none => simp
    | some s =>
      simp only [List.isSuffixOf_iff_suffix, Bool.or_eq_true, beq_iff_eq,
        Option.some.injEq, exists_eq_left', or_assoc]
  · intro r h1 h2
    unfold keeps filter_2 endsWithOpt
    rw [h1]
    simp [h2]
  · intro r h
    unfold filter_2
    rw [h]
    simp

/-- Witness for the amended C3. -/
theorem c3_witness : filter_2 ampOtherRow = true :=
  c3_filter_b.2.2.1 ampOtherRow (by decide)

/-- C4 counterexample: on the scenario row written with the spec delimiter
`»` (U+00BB) the code — which splits on the two-character `Â»` — finds a
single path segment, `section`/`sub_section` are absent, Filter B fails, and
the output is empty rather than the claimed single row. -/
theorem c4_counterexample :
    transform [specDelimRow] = some [] ∧
    transform [specDelimRow] ≠ some [scenarioAgg] := by
  constructor
  · decide
  · decide

/-- C4 (amended): on the scenario row with the hierarchy delimiter spelled as
the code splits it (`Â»`, U+00C2 U+00BB), the transform produces exactly the
claimed single aggregated row. -/
theorem c4_scenario : transform [codeDelimRow] = some [scenarioAgg] := by
  decide

/-- C5: Filter A retains a row iff its `ad_unit_level_0` is one of the three
included platforms; a row with any other label (`20minutes_other`,
`20minutes_tablet`, ...) is never kept, and deleting all rows failing
Filter A leaves a successful transform's output unchanged. -/
theorem c5_filter_a :
    (∀ r : RawRow, filter_1 r = true ↔
      (adUnitLevel0 r = some "20minutes_web" ∨
       adUnitLevel0 r = some "20minutes_web_video_P2" ∨
       adUnitLevel0 r = some "20minutes_mobile")) ∧
    (∀ r : RawRow, adUnitLevel0 r = some "20minutes_other" → keeps r = false) ∧
    (∀ (rows : List RawRow) (out : List AggRow), transform rows = some out →
      transform (rows.filter filter_1) = some out) := by
  refine ⟨?_, ?_, ?_⟩
  · intro r
    simp [filter_1, or_assoc]
  · intro r h
    simp [keeps, filter_1, h]
  · intro rows out h
    exact transform_filter_eq filter_1 (fun r hr => Or.inl (by simp [keeps, hr])) h

/-- Witness for C5. -/
theorem c5_witness : keeps badRevenueRow = false :=
  c5_filter_a.2.1 badRevenueRow (by decide)

/-- C6: the `device_type` column is `ad_unit_level_0` mapped through the
fixed table (`20minutes_web`, `20minutes_web_video_P2` → `Desktop`;
`20minutes_mobile` → `Mobile Web`), any other label passing through
verbatim. -/
theorem c6_device_mapping :
    (∀ s : String, deviceMap s = deviceMapSpec s) ∧
    (∀ r : RawRow, deviceTypeOf r = (adUnitLevel0 r).map deviceMapSpec) ∧
    (∀ r : RawRow, adUnitLevel0 r = some "20minutes_mobile" →
      deviceTypeOf r = some "Mobile Web") ∧
    (∀ s : String, s ≠ "20minutes_web" → s ≠ "20minutes_web_video_P2" →
      s ≠ "20minutes_mobile" → deviceMap s = s) := by
  have hmap : ∀ s : String, deviceMap s = deviceMapSpec s := by
    intro s
    unfold deviceMap deviceMapSpec
    by_cases h1 : s = "20minutes_web"
    · simp [h1]
    · by_cases h2 : s = "20minutes_web_video_P2"
      · simp [h1, h2]
      · by_cases h3 : s = "20minutes_mobile" <;> simp [h1, h2, h3]
  refine ⟨hmap, ?_, ?_, ?_⟩
  · intro r
    unfold deviceTypeOf
    cases adUnitLevel0 r with
    | none => rfl
    | some s => simp [hmap s]
  · intro r h
    unfold deviceTypeOf
    rw [h]
    decide
  · intro s h1 h2 h3
    simp [deviceMap, h1, h2, h3]

/-- Witness for C6. -/
theorem c6_witness : deviceTypeOf ampOtherRow = some "Mobile Web" :=
  c6_device_mapping.2.2.1 ampOtherRow (by decide)

/-- C7 counterexample: two retained rows with one grouping key and int64
impressions `2^62` each — the program's int64 group sum wraps to `-2^63`, so
the output cell is not the mathematical sum `2^63` the claim states. -/
theorem c7_counterexample :
    transform [bigRowA, bigRowB] = some [overflowAgg] ∧
    ¬ (overflowAgg.impressions
        = ((rowsWithKey [bigRowA, bigRowB] (aggKey overflowAgg)).map
            RawRow.impressions).sum) := by
  constructor
  · decide
  · decide

/-- C7 (amended): in a successful transform no two output rows share a
grouping key; each output row's impressions and total_ad_requests are the
int64 sums (wrapping mod `2^64` on overflow, as numpy int64 does) of those
metrics over the retained input rows carrying that key, and its revenue is
the sum of the parsed revenues of those rows. -/
theorem c7_grouping :
    ∀ (rows : List RawRow) (out : List AggRow), transform rows = some out →
      (out.map aggKey).Nodup ∧
      ∀ a ∈ out,
        a.impressions
          = wrapInt64 ((rowsWithKey rows (aggKey a)).map RawRow.impressions).sum ∧
        a.revenue = ((rowsWithKey rows (aggKey a)).map
          fun r => (parseFloat r.revenue).getD 0).sum ∧
        a.total_ad_requests
          = wrapInt64 ((rowsWithKey rows (aggKey a)).map RawRow.totalAdRequests).sum := by
  intro rows out h
  obtain ⟨prs, hp, hagg⟩ := transform_eq_some h
  subst hagg
  constructor
  · rw [aggregate_map_aggKey]
    exact ((List.perm_insertionSort _ _).nodup_iff).mpr (List.nodup_dedup _)
  · intro a ha
    unfold aggregate at ha
    obtain ⟨k, _, rfl⟩ := List.mem_map.mp ha
    exact ⟨congrArg wrapInt64 (group_metric_sum hp k RawRow.impressions),
      group_rev_sum hp k,
      congrArg wrapInt64 (group_metric_sum hp k RawRow.totalAdRequests)⟩

/-- Witness for C7. -/
theorem c7_witness : ([scenarioAgg].map aggKey).Nodup :=
  (c7_grouping [codeDelimRow] [scenarioAgg] (by decide)).1

/-- C8: the transform-and-serialize stage is a pure function of the source
table — equal source tables give byte-identical CSV objects. -/
theorem c8_deterministic :
    ∀ rows rows' : List RawRow, rows = rows' → publishCsv rows = publishCsv rows' := by
  intro rows rows' h
  rw [h]

/-- Witness for C8. -/
theorem c8_witness : publishCsv [codeDelimRow] = publishCsv [codeDelimRow] :=
  c8_deterministic [codeDelimRow] [codeDelimRow] rfl

/-- C10: rows that pass both filters but have an absent key component
(possible for `sub_section` when `section = "amp"`, or for `section` when
`sub_section` matches) are dropped by the grouping: deleting them from the
input leaves a successful transform's output unchanged, so their metrics are
counted nowhere. -/
theorem c10_incomplete_key_dropped :
    ∀ (rows : List RawRow) (out : List AggRow), transform rows = some out →
      transform (rows.filter fun r => !(keeps r && (rowKey r).isNone)) = some out := by
  intro rows out h
  refine transform_filter_eq _ ?_ h
  intro r hr
  cases hkp : keeps r with
  | false => exact Or.inl rfl
  | true =>
    cases hnn : rowKey r with
    | none => exact Or.inr rfl
    | some k =>
      rw [hkp, hnn] at hr
      simp at hr

/-- Witness for C10: the filter-passing, keyless `ampNoSubRow` can be deleted
without changing the (empty) output. -/
theorem c10_witness :
    transform ([ampNoSubRow].filter fun r => !(keeps r && (rowKey r).isNone)) = some [] :=
  c10_incomplete_key_dropped [ampNoSubRow] [] (by decide)

/-- A successful `matchAt` returns the maximal word-character run. -/
theorem matchAt_some {cs w : List Char} (h : matchAt cs = some w) :
    w = cs.takeWhile isWordChar := by
  unfold matchAt at h
  split at h
  · cases h
  · split at h
    · split at h
      · split at h
        · exact (Option.some.inj h).symm
        · cases h
      · cases h
    · cases h

/-- The label a successful `searchExtract` returns is all word-class
characters. -/
theorem searchExtract_all_word {cs w : List Char} (h : searchExtract cs = some w) :
    ∀ c ∈ w, isWordChar c = true := by
  induction cs with
  | nil => cases h
  | cons c rest ih =>
    unfold searchExtract at h
    cases hm : matchAt (c :: rest) with
    | some w' =>
      rw [hm] at h
      obtain rfl := Option.some.inj h
      intro x hx
      rw [matchAt_some hm] at hx
      exact List.mem_takeWhile_imp hx
    | none =>
      rw [hm] at h
      exact ih h

/-- Word-class characters trigger no CSV quoting. -/
theorem wordChar_csvSafe {c : Char} (h : isWordChar c = true) : csvSafeChar c = true := by
  by_cases h1 : c = ','
  · subst h1; exact absurd h (by decide)
  by_cases h2 : c = Char.ofNat 34
  · subst h2; exact absurd h (by decide)
  by_cases h3 : c = Char.ofNat 10
  · subst h3; exact absurd h (by decide)
  by_cases h4 : c = Char.ofNat 13
  · subst h4; exact absurd h (by decide)
  simp [csvSafeChar, h1, h2, h3, h4]

/-- Concatenation preserves CSV safety. -/
theorem all_append_safe {p : Char → Bool} {l1 l2 : List Char}
    (h1 : l1.all p = true) (h2 : l2.all p = true) : (l1 ++ l2).all p = true := by
  simp [List.all_append, h1, h2]

/-- Decimal digit characters are CSV-safe. -/
theorem digitChar_safe {k : Nat} (hk : k < 10) : csvSafeChar (Char.ofNat (48 + k)) = true := by
  interval_cases k <;> decide

/-- The raw digits of a natural number are CSV-safe. -/
theorem natCharsAux_safe : ∀ (fuel n : Nat), (natCharsAux fuel n).all csvSafeChar = true
  | 0, _ => rfl
  | fuel + 1, n => by
    unfold natCharsAux
    split
    · rfl
    · refine all_append_safe (natCharsAux_safe fuel (n / 10)) ?_
      have hk : n % 10 < 10 := Nat.mod_lt _ (by norm_num)
      simp [digitChar_safe hk]

/-- The decimal form of a natural number is CSV-safe. -/
theorem natChars_safe (n : Nat) : (natChars n).all csvSafeChar = true := by
  unfold natChars
  split
  · decide
  · exact natCharsAux_safe _ _

/-- Zero padding is CSV-safe. -/
theorem padZeros_safe {w : Nat} {l : List Char} (h : l.all csvSafeChar = true) :
    (padZeros w l).all csvSafeChar = true := by
  refine all_append_safe ?_ h
  rw [List.all_eq_true]
  intro c hc
  rw [List.eq_of_mem_replicate hc]
  decide

/-- A safe head and a safe tail make a safe list. -/
theorem all_cons_safe {p : Char → Bool} {c : Char} {l : List Char}
    (hc : p c = true) (hl : l.all p = true) : (c :: l).all p = true := by
  simp [hc, hl]

/-- The rendered date is CSV-safe. -/
theorem formatDate_safe (d : Nat × Nat × Nat) :
    (formatDate d).data.all csvSafeChar = true := by
  unfold formatDate
  exact all_append_safe
    (all_append_safe (padZeros_safe (natChars_safe _))
      (all_cons_safe (by decide) (padZeros_safe (natChars_safe _))))
    (all_cons_safe (by decide) (padZeros_safe (natChars_safe _)))

/-- The rendered integer metric is CSV-safe. -/
theorem intStr_safe (i : Int) : (intStr i).data.all csvSafeChar = true := by
  unfold intStr
  split
  · exact all_cons_safe (by decide) (natChars_safe _)
  · exact natChars_safe _

/-- The rendered revenue is CSV-safe. -/
theorem formatRat_safe (q : ℚ) : (formatRat q).data.all csvSafeChar = true := by
  simp only [formatRat]
  split
  · split
    · refine all_cons_safe (by decide) (all_append_safe (natChars_safe _)
        (all_cons_safe (by decide) ?_))
      split
      · decide
      · exact padZeros_safe (natChars_safe _)
    · refine all_append_safe (natChars_safe _) (all_cons_safe (by decide) ?_)
      split
      · decide
      · exact padZeros_safe (natChars_safe _)
  · exact all_append_safe (natChars_safe _)
      (all_cons_safe (by decide) (natChars_safe _))

/-- Any label column value — an extracted regex group — is CSV-safe. -/
theorem labelCol_safe {segs : List (List Char)} {i : Nat} {s : String}
    (h : ((segs.get? i).bind fun cs => (searchExtract cs).map String.mk) = some s) :
    s.data.all csvSafeChar = true := by
  cases hseg : segs.get? i with
  | none => rw [hseg] at h; cases h
  | some cs =>
    rw [hseg] at h
    simp only [Option.some_bind] at h
    cases hse : searchExtract cs with
    | none => rw [hse] at h; cases h
    | some w =>
      rw [hse] at h
      simp only [Option.some_bind, Option.map_some'] at h
      obtain rfl := Option.some.inj h
      rw [List.all_eq_true]
      intro c hc
      exact wordChar_csvSafe (searchExtract_all_word hse c hc)

/-- The device mapping preserves CSV safety. -/
theorem deviceMap_safe {s : String} (h : s.data.all csvSafeChar = true) :
    (deviceMap s).data.all csvSafeChar = true := by
  unfold deviceMap
  split
  · decide
  · split
    · decide
    · split
      · decide
      · exact h

/-- A present `device_type` cell is CSV-safe. -/
theorem deviceTypeOf_safe {r : RawRow} {d : String} (h : deviceTypeOf r = some d) :
    d.data.all csvSafeChar = true := by
  unfold deviceTypeOf at h
  cases hl : adUnitLevel0 r with
  | none => rw [hl] at h; cases h
  | some w =>
    rw [hl] at h
    simp only [Option.map_some'] at h
    obtain rfl := Option.some.inj h
    exact deviceMap_safe (labelCol_safe hl)

/-- All string components of a complete grouping key are CSV-safe. -/
theorem rowKey_safe {r : RawRow} {k : GroupKey} (h : rowKey r = some k) :
    k.2.1.data.all csvSafeChar = true ∧ k.2.2.1.data.all csvSafeChar = true ∧
      k.2.2.2.data.all csvSafeChar = true := by
  unfold rowKey at h
  cases hd : deviceTypeOf r with
  | none => rw [hd] at h; cases h
  | some d =>
    cases hs : sectionLabel r with
    | none => rw [hd, hs] at h; cases h
    | some sec =>
      cases hss : subSectionLabel r with
      | none => rw [hd, hs, hss] at h; cases h
      | some sub =>
        rw [hd, hs, hss] at h
        obtain rfl := Option.some.inj h
        exact ⟨deviceTypeOf_safe hd, labelCol_safe hs, labelCol_safe hss⟩

/-- Every sorted group key comes from some row's complete key. -/
theorem mem_sortedKeys_rowKey {prs : List PRow} {k : GroupKey}
    (hk : k ∈ sortedKeys prs) : ∃ p : PRow, rowKey p.row = some k := by
  have h1 : k ∈ groupKeys prs := ((List.perm_insertionSort _ _).mem_iff).mp hk
  have h2 : k ∈ (keyedOf prs).map Prod.fst := List.mem_dedup.mp h1
  obtain ⟨kp, hkp, hfst⟩ := List.mem_map.mp h2
  obtain ⟨p, _, hg⟩ := List.mem_filterMap.mp hkp
  cases hrk : rowKey p.row with
  | none => rw [hrk] at hg; cases hg
  | some k' =>
    rw [hrk] at hg
    simp only [Option.map_some'] at hg
    obtain rfl := Option.some.inj hg
    exact ⟨p, by rw [hrk]; exact congrArg some hfst⟩

/-- The string fields of every aggregated output row are CSV-safe. -/
theorem aggregate_fields_safe {prs : List PRow} {a : AggRow} (ha : a ∈ aggregate prs) :
    a.device_type.data.all csvSafeChar = true ∧
      a.section'.data.all csvSafeChar = true ∧
      a.sub_section.data.all csvSafeChar = true := by
  unfold aggregate at ha
  obtain ⟨k, hk, rfl⟩ := List.mem_map.mp ha
  obtain ⟨p, hpk⟩ := mem_sortedKeys_rowKey hk
  exact rowKey_safe hpk

/-- `sepJoin` preserves a character predicate satisfied by the separator and
all the pieces. -/
theorem sepJoin_all (p : Char → Bool) (sep : String) (hsep : sep.data.all p = true) :
    ∀ fs : List String, (∀ f ∈ fs, f.data.all p = true) →
      (sepJoin sep fs).data.all p = true
  | [], _ => by simp [sepJoin]
  | [x], h => by simpa [sepJoin] using h x (by simp)
  | x :: y :: xs, h => by
    unfold sepJoin
    rw [String.data_append, String.data_append]
    exact all_append_safe (all_append_safe (h x (by simp)) hsep)
      (sepJoin_all p sep hsep (y :: xs) fun f hf => h f (List.mem_cons_of_mem _ hf))

/-- A CSV-safe field needs no quoting. -/
theorem csvField_eq_self {s : String} (h : s.data.all csvSafeChar = true) :
    csvField s = s := by
  unfold csvField
  rw [h]
  rfl

/-- CSV-safe characters are in particular not the line terminator. -/
theorem csvSafe_no_newline {c : Char} (h : csvSafeChar c = true) :
    (!(c == Char.ofNat 10)) = true := by
  by_cases hc : c = Char.ofNat 10
  · subst hc; exact absurd h (by decide)
  · simp [hc]

/-- C9: the published CSV text of a successful transform is the header line
followed by one comma-joined line per aggregated row, columns in the order
date, device_type, section, sub_section, impressions, revenue,
total_ad_requests, with no quoting and no embedded line terminator. -/
theorem c9_csv_layout :
    ∀ (rows : List RawRow) (out : List AggRow), transform rows = some out →
      toCsv out
        = sepJoin "\n"
            ("date,device_type,section,sub_section,impressions,revenue,total_ad_requests"
              :: out.map fun a =>
                sepJoin "," [formatDate a.date, a.device_type, a.section', a.sub_section,
                  intStr a.impressions, formatRat a.revenue, intStr a.total_ad_requests])
          ++ "\n" ∧
      ∀ a ∈ out, ((rowLine a).data.all fun c => !(c == Char.ofNat 10)) = true := by
  intro rows out h
  obtain ⟨prs, hp, hagg⟩ := transform_eq_some h
  have hmem : ∀ a ∈ out, a ∈ aggregate prs := by
    intro a ha
    rw [hagg]
    exact ha
  have hfields : ∀ a ∈ out, (aggRowFields a).map csvField = aggRowFields a := by
    intro a ha
    have hsafe := aggregate_fields_safe (hmem a ha)
    unfold aggRowFields
    simp only [List.map_cons, List.map_nil]
    rw [csvField_eq_self (formatDate_safe _), csvField_eq_self hsafe.1,
      csvField_eq_self hsafe.2.1, csvField_eq_self hsafe.2.2,
      csvField_eq_self (intStr_safe _), csvField_eq_self (formatRat_safe _),
      csvField_eq_self (intStr_safe _)]
  constructor
  · unfold toCsv
    have hml : out.map rowLine = out.map fun a =>
        sepJoin "," [formatDate a.date, a.device_type, a.section', a.sub_section,
          intStr a.impressions, formatRat a.revenue, intStr a.total_ad_requests] := by
      apply List.map_congr_left
      intro a ha
      unfold rowLine
      rw [hfields a ha]
      rfl
    rw [hml]
    rfl
  · intro a ha
    have hsafe := aggregate_fields_safe (hmem a ha)
    have hfall : ∀ g ∈ aggRowFields a, g.data.all csvSafeChar = true := by
      intro g hg
      unfold aggRowFields at hg
      simp only [List.mem_cons, List.not_mem_nil, or_false] at hg
      rcases hg with rfl | rfl | rfl | rfl | rfl | rfl | rfl
      · exact formatDate_safe _
      · exact hsafe.1
      · exact hsafe.2.1
      · exact hsafe.2.2
      · exact intStr_safe _
      · exact formatRat_safe _
      · exact intStr_safe _
    unfold rowLine
    rw [hfields a ha]
    refine sepJoin_all _ "," (by decide) _ ?_
    intro f hf
    have hsafef := hfall f hf
    rw [List.all_eq_true] at hsafef ⊢
    intro c hc
    exact csvSafe_no_newline (hsafef c hc)

/-- Witness for C9 at a concrete one-row table. -/
theorem c9_witness :
    toCsv [scenarioAgg]
      = sepJoin "\n"
          ("date,device_type,section,sub_section,impressions,revenue,total_ad_requests"
            :: [scenarioAgg].map fun a =>
              sepJoin "," [formatDate a.date, a.device_type, a.section', a.sub_section,
                intStr a.impressions, formatRat a.revenue, intStr a.total_ad_requests])
        ++ "\n" :=
  (c9_csv_layout [codeDelimRow] [scenarioAgg] (by decide)).1
